import Mathlib

/-! Verification development for the svg_drawing geometry core.

Shallow embedding of the repository's four source files
(`src/svg/point.rs`, `src/svg/tick_timer.rs`, `src/svg/math.rs`,
`src/svg/svg_curve.rs`).  Rust `f64` values are modelled as real numbers
(exact arithmetic); Rust iterators are modelled by the finite list of
points they yield, with the mutable iterator state made explicit.
Definitions follow the source code line by line; the Rust field name
`end` is rendered `endP` (a Lean keyword) and the method `at` is
rendered `atTime` for the same reason. -/

open scoped Classical

set_option maxRecDepth 8000

noncomputable section

namespace SvgDrawing

/-- Model of `Point` from `point.rs`: an immutable pair of `f64`,
modelled as a pair of reals. -/
structure Point where
  x : ℝ
  y : ℝ

/-- Model of `Point::ZERO`. -/
def Point.ZERO : Point := ⟨0, 0⟩

/-- Model of `Point::new`. -/
def Point.new (x y : ℝ) : Point := ⟨x, y⟩

/-- Model of `impl Add<Point> for Point`. -/
instance : Add Point := ⟨fun a b => ⟨a.x + b.x, a.y + b.y⟩⟩

/-- Model of `impl Sub<Point> for Point`. -/
instance : Sub Point := ⟨fun a b => ⟨a.x - b.x, a.y - b.y⟩⟩

/-- Model of `impl Mul<f64> for Point` (scalar multiplication). -/
instance : HMul Point ℝ Point := ⟨fun p c => ⟨p.x * c, p.y * c⟩⟩

/-- Model of `svgtypes::PathCommand`, the command tag of a path segment. -/
inductive PathCommand
  | MoveTo
  | LineTo
  | HorizontalLineTo
  | VerticalLineTo
  | CurveTo
  | SmoothCurveTo
  | Quadratic
  | SmoothQuadratic
  | EllipticalArc
  | ClosePath
deriving DecidableEq

/-- Model of `svgtypes::PathSegment`: one typed drawing instruction with
an absolute/relative flag `ab` (the Rust field `abs`) and `f64` parameters. -/
inductive PathSegment
  | MoveTo (ab : Bool) (x y : ℝ)
  | LineTo (ab : Bool) (x y : ℝ)
  | HorizontalLineTo (ab : Bool) (x : ℝ)
  | VerticalLineTo (ab : Bool) (y : ℝ)
  | CurveTo (ab : Bool) (x1 y1 x2 y2 x y : ℝ)
  | SmoothCurveTo (ab : Bool) (x2 y2 x y : ℝ)
  | Quadratic (ab : Bool) (x1 y1 x y : ℝ)
  | SmoothQuadratic (ab : Bool) (x y : ℝ)
  | EllipticalArc (ab : Bool) (rx ry x_axis_rotation : ℝ) (large_arc sweep : Bool) (x y : ℝ)
  | ClosePath (ab : Bool)

/-- Model of `PathSegment::cmd`: the command tag of a segment. -/
def PathSegment.cmd : PathSegment → PathCommand
  | .MoveTo _ _ _ => .MoveTo
  | .LineTo _ _ _ => .LineTo
  | .HorizontalLineTo _ _ => .HorizontalLineTo
  | .VerticalLineTo _ _ => .VerticalLineTo
  | .CurveTo _ _ _ _ _ _ _ => .CurveTo
  | .SmoothCurveTo _ _ _ _ _ => .SmoothCurveTo
  | .Quadratic _ _ _ _ _ => .Quadratic
  | .SmoothQuadratic _ _ _ => .SmoothQuadratic
  | .EllipticalArc _ _ _ _ _ _ _ _ => .EllipticalArc
  | .ClosePath _ => .ClosePath

/-- Model of `TickTimer` from `tick_timer.rs`: the mutable iterator state
is its single field `time`. -/
structure TickTimer where
  time : ℝ

/-- Model of `Default for TickTimer`: time starts at `0.0`. -/
def TickTimer.default : TickTimer := ⟨0.0⟩

/-- Model of `TickTimer::TICK_PERIOD`. -/
def TickTimer.TICK_PERIOD : ℝ := 0.001

/-- Model of `Iterator::next for TickTimer`: returns the yielded value (if
any) together with the successor state.  When `time > 1.0` nothing is
yielded and the state is unchanged; otherwise the current time is yielded
and the state advances by `TICK_PERIOD`. -/
def TickTimer.next (t : TickTimer) : Option ℝ × TickTimer :=
  if t.time > 1.0 then (none, t)
  else (some t.time, ⟨t.time + TickTimer.TICK_PERIOD⟩)

/-- Denotation of the `TickTimer` iterator: the full (finite) list of
values it yields from a given state, unfolding `TickTimer.next` until it
returns `none`.  Termination: each step increases `time` by `0.001`, so
`⌊(1.001 - time) * 1000⌋₊` decreases. -/
def TickTimer.list (t : TickTimer) : List ℝ :=
  if h : t.time > 1.0 then []
  else t.time :: TickTimer.list ⟨t.time + TickTimer.TICK_PERIOD⟩
termination_by ⌊(1.001 - t.time) * 1000⌋₊
decreasing_by
  simp only [not_lt] at h
  have h1 : (1.001 - t.time) * 1000 - 1 = (1.001 - (t.time + TickTimer.TICK_PERIOD)) * 1000 := by
    simp only [TickTimer.TICK_PERIOD]
    ring
  have h2 : (0:ℝ) ≤ (1.001 - (t.time + TickTimer.TICK_PERIOD)) * 1000 := by
    nlinarith
  have h3 : ⌊(1.001 - t.time) * 1000⌋₊ = ⌊(1.001 - (t.time + TickTimer.TICK_PERIOD)) * 1000⌋₊ + 1 := by
    rw [← Nat.floor_add_one h2, ← h1]
    ring_nf
  omega

/-- Model of `sqr` from `math.rs`. -/
def sqr (x : ℝ) : ℝ := x * x

/-- Model of `angle_between` from `math.rs`: signed angle from `start` to
`endP`, computed as `sign(cross) * acos(dot / (|start| * |endP|))`. -/
def angle_between (start endP : Point) : ℝ :=
  let p := start.x * endP.x + start.y * endP.y
  let n := Real.sqrt ((sqr start.x + sqr start.y) * (sqr endP.x + sqr endP.y))
  let sign : ℝ := if start.x * endP.y - start.y * endP.x < 0 then -1 else 1
  sign * Real.arccos (p / n)

/-- Model of `EPSILON` from `math.rs`. -/
def EPSILON : ℝ := 0.05

/-- Model of `is_point_on_lane` from `math.rs`: the collinearity ("lane")
test of point `p` against the chord from `lane_start` to `lane_end`, with a
zero denominator contributing ratio `0`.  The Rust function returns `bool`;
it is modelled as the corresponding proposition. -/
def is_point_on_lane (lane_start lane_end : Point) (p : Point) : Prop :=
  let vector := lane_end - lane_start
  let left_part := if vector.x = 0 then 0 else (p.x - lane_start.x) / vector.x
  let right_part := if vector.y = 0 then 0 else (p.y - lane_start.y) / vector.y
  |left_part - right_part| < EPSILON

/-- Model of `SquareCurve` from `math.rs` (quadratic Bézier data). -/
structure SquareCurve where
  start : Point
  p1 : Point
  endP : Point

/-- Model of `SquareCurve::new`. -/
def SquareCurve.new (start p1 endP : Point) : SquareCurve := ⟨start, p1, endP⟩

/-- Model of `CurvePoint::at for SquareCurve`. -/
def SquareCurve.atTime (c : SquareCurve) (time : ℝ) : Point :=
  let diff := 1 - time
  let square_t := time * time
  let square_diff := diff * diff
  c.start * square_diff + c.p1 * (2 : ℝ) * time * diff + c.endP * square_t

/-- Model of `CubicCurve` from `math.rs` (cubic Bézier data). -/
structure CubicCurve where
  start : Point
  p1 : Point
  p2 : Point
  endP : Point

/-- Model of `CubicCurve::new`. -/
def CubicCurve.new (start p1 p2 endP : Point) : CubicCurve := ⟨start, p1, p2, endP⟩

/-- Model of `CurvePoint::at for CubicCurve`. -/
def CubicCurve.atTime (c : CubicCurve) (time : ℝ) : Point :=
  let diff := 1 - time
  let square_t := time * time
  let cube_t := square_t * time
  let square_diff := diff * diff
  let cube_diff := square_diff * diff
  c.start * cube_diff + c.p1 * (3 : ℝ) * time * square_diff
    + c.p2 * (3 : ℝ) * square_t * diff + c.endP * cube_t

/-- Model of `EllipseCurve` from `math.rs` (center-parameterized arc data). -/
structure EllipseCurve where
  start_angle : ℝ
  sweep_angle : ℝ
  rx_abs : ℝ
  ry_abs : ℝ
  x_rad_rotation : ℝ
  center_x : ℝ
  center_y : ℝ

/-- Model of `EllipseCurve::new`. -/
def EllipseCurve.new (start_angle sweep_angle rx_abs ry_abs x_rad_rotation center_x center_y : ℝ) :
    EllipseCurve :=
  ⟨start_angle, sweep_angle, rx_abs, ry_abs, x_rad_rotation, center_x, center_y⟩

/-- Model of `CurvePoint::at for EllipseCurve`: point on the rotated,
translated ellipse at parameter `time`. -/
def EllipseCurve.atTime (c : EllipseCurve) (time : ℝ) : Point :=
  let angle := c.start_angle + c.sweep_angle * time
  let ellipse_component_x := c.rx_abs * Real.cos angle
  let ellipse_component_y := c.ry_abs * Real.sin angle
  let point_x := Real.cos c.x_rad_rotation * ellipse_component_x
    - Real.sin c.x_rad_rotation * ellipse_component_y + c.center_x
  let point_y := Real.sin c.x_rad_rotation * ellipse_component_x
    + Real.cos c.x_rad_rotation * ellipse_component_y + c.center_y
  Point.new point_x point_y

/-- Truncation toward zero, the rounding used by Rust's `f64` remainder
operator `%`. -/
def truncReal (q : ℝ) : ℝ := if 0 ≤ q then (⌊q⌋ : ℝ) else (⌈q⌉ : ℝ)

/-- Model of Rust's `f64` remainder `a % b` (truncated division,
result has the sign of the dividend). -/
def fmod (a b : ℝ) : ℝ := a - b * truncReal (a / b)

/-! The body of `ellipse_support_calc` from `math.rs` is translated below
one local binding at a time: each `let` (and each `mut` update) of the Rust
function becomes one named definition, and `ellipse_support_calc` itself
returns the same 7-tuple the Rust function returns.  All stages take the
function's arguments `current, rx, ry, x_axis_rotation, large_arc, sweep,
end_x, end_y` (each stage only the ones it reads). -/

/-- Stage of `ellipse_support_calc`: `x_rad_rotation`, the x-axis rotation
normalized mod 360 degrees and converted to radians. -/
def arc_x_rad_rotation (x_axis_rotation : ℝ) : ℝ :=
  fmod x_axis_rotation 360 * Real.pi / 180

/-- Stage of `ellipse_support_calc`: `dx`, half the chord's x-extent. -/
def arc_dx (current : Point) (end_x : ℝ) : ℝ := (current.x - end_x) / 2

/-- Stage of `ellipse_support_calc`: `dy`, half the chord's y-extent. -/
def arc_dy (current : Point) (end_y : ℝ) : ℝ := (current.y - end_y) / 2

/-- Stage of `ellipse_support_calc`: `dx_rotated` (half-chord rotated into
the ellipse's local frame). -/
def arc_dx_rotated (current : Point) (x_axis_rotation end_x end_y : ℝ) : ℝ :=
  Real.cos (arc_x_rad_rotation x_axis_rotation) * arc_dx current end_x
    + Real.sin (arc_x_rad_rotation x_axis_rotation) * arc_dy current end_y

/-- Stage of `ellipse_support_calc`: `dy_rotated`. -/
def arc_dy_rotated (current : Point) (x_axis_rotation end_x end_y : ℝ) : ℝ :=
  -Real.sin (arc_x_rad_rotation x_axis_rotation) * arc_dx current end_x
    + Real.cos (arc_x_rad_rotation x_axis_rotation) * arc_dy current end_y

/-- Stage of `ellipse_support_calc`: `radii_check`, computed against the
absolute values of the input radii. -/
def arc_radii_check (current : Point) (rx ry x_axis_rotation end_x end_y : ℝ) : ℝ :=
  sqr (arc_dx_rotated current x_axis_rotation end_x end_y) / sqr |rx|
    + sqr (arc_dy_rotated current x_axis_rotation end_x end_y) / sqr |ry|

/-- Stage of `ellipse_support_calc`: the final value of the mutable
`rx_abs` (scaled up by `sqrt radii_check` when the check exceeds 1). -/
def arc_rx_abs (current : Point) (rx ry x_axis_rotation end_x end_y : ℝ) : ℝ :=
  if arc_radii_check current rx ry x_axis_rotation end_x end_y > 1 then
    Real.sqrt (arc_radii_check current rx ry x_axis_rotation end_x end_y) * |rx|
  else |rx|

/-- Stage of `ellipse_support_calc`: the final value of the mutable `ry_abs`. -/
def arc_ry_abs (current : Point) (rx ry x_axis_rotation end_x end_y : ℝ) : ℝ :=
  if arc_radii_check current rx ry x_axis_rotation end_x end_y > 1 then
    Real.sqrt (arc_radii_check current rx ry x_axis_rotation end_x end_y) * |ry|
  else |ry|

/-- Stage of `ellipse_support_calc`: the raw center radicand
`center_square_numerator / center_square_root_denom` before clamping. -/
def arc_center_radicand_raw (current : Point) (rx ry x_axis_rotation end_x end_y : ℝ) : ℝ :=
  (sqr (arc_rx_abs current rx ry x_axis_rotation end_x end_y)
      * sqr (arc_ry_abs current rx ry x_axis_rotation end_x end_y)
    - sqr (arc_rx_abs current rx ry x_axis_rotation end_x end_y)
      * sqr (arc_dy_rotated current x_axis_rotation end_x end_y)
    - sqr (arc_ry_abs current rx ry x_axis_rotation end_x end_y)
      * sqr (arc_dx_rotated current x_axis_rotation end_x end_y))
  / (sqr (arc_rx_abs current rx ry x_axis_rotation end_x end_y)
      * sqr (arc_dy_rotated current x_axis_rotation end_x end_y)
    + sqr (arc_ry_abs current rx ry x_axis_rotation end_x end_y)
      * sqr (arc_dx_rotated current x_axis_rotation end_x end_y))

/-- Stage of `ellipse_support_calc`: the final value of the mutable
`center_radicand`, clamped to zero when negative. -/
def arc_center_radicand (current : Point) (rx ry x_axis_rotation end_x end_y : ℝ) : ℝ :=
  if arc_center_radicand_raw current rx ry x_axis_rotation end_x end_y < 0 then 0
  else arc_center_radicand_raw current rx ry x_axis_rotation end_x end_y

/-- Stage of `ellipse_support_calc`: `center_coef`, the signed square root
of the clamped radicand (positive when `large_arc != sweep`). -/
def arc_center_coef (current : Point) (rx ry x_axis_rotation : ℝ) (large_arc sweep : Bool)
    (end_x end_y : ℝ) : ℝ :=
  if large_arc ≠ sweep then
    Real.sqrt (arc_center_radicand current rx ry x_axis_rotation end_x end_y)
  else -Real.sqrt (arc_center_radicand current rx ry x_axis_rotation end_x end_y)

/-- Stage of `ellipse_support_calc`: `center_x_rotated`. -/
def arc_center_x_rotated (current : Point) (rx ry x_axis_rotation : ℝ) (large_arc sweep : Bool)
    (end_x end_y : ℝ) : ℝ :=
  arc_center_coef current rx ry x_axis_rotation large_arc sweep end_x end_y
    * (arc_rx_abs current rx ry x_axis_rotation end_x end_y
        * arc_dy_rotated current x_axis_rotation end_x end_y
        / arc_ry_abs current rx ry x_axis_rotation end_x end_y)

/-- Stage of `ellipse_support_calc`: `center_y_rotated`. -/
def arc_center_y_rotated (current : Point) (rx ry x_axis_rotation : ℝ) (large_arc sweep : Bool)
    (end_x end_y : ℝ) : ℝ :=
  arc_center_coef current rx ry x_axis_rotation large_arc sweep end_x end_y
    * (-arc_ry_abs current rx ry x_axis_rotation end_x end_y
        * arc_dx_rotated current x_axis_rotation end_x end_y
        / arc_rx_abs current rx ry x_axis_rotation end_x end_y)

/-- Stage of `ellipse_support_calc`: `center_x` (local center rotated back
and translated by the chord midpoint). -/
def arc_center_x (current : Point) (rx ry x_axis_rotation : ℝ) (large_arc sweep : Bool)
    (end_x end_y : ℝ) : ℝ :=
  Real.cos (arc_x_rad_rotation x_axis_rotation)
      * arc_center_x_rotated current rx ry x_axis_rotation large_arc sweep end_x end_y
    - Real.sin (arc_x_rad_rotation x_axis_rotation)
      * arc_center_y_rotated current rx ry x_axis_rotation large_arc sweep end_x end_y
    + (current.x + end_x) / 2

/-- Stage of `ellipse_support_calc`: `center_y`. -/
def arc_center_y (current : Point) (rx ry x_axis_rotation : ℝ) (large_arc sweep : Bool)
    (end_x end_y : ℝ) : ℝ :=
  Real.sin (arc_x_rad_rotation x_axis_rotation)
      * arc_center_x_rotated current rx ry x_axis_rotation large_arc sweep end_x end_y
    + Real.cos (arc_x_rad_rotation x_axis_rotation)
      * arc_center_y_rotated current rx ry x_axis_rotation large_arc sweep end_x end_y
    + (current.y + end_y) / 2

/-- Stage of `ellipse_support_calc`: `start_vector` (unit-circle start
vector relative to the center, in the local frame). -/
def arc_start_vector (current : Point) (rx ry x_axis_rotation : ℝ) (large_arc sweep : Bool)
    (end_x end_y : ℝ) : Point :=
  Point.new
    ((arc_dx_rotated current x_axis_rotation end_x end_y
        - arc_center_x_rotated current rx ry x_axis_rotation large_arc sweep end_x end_y)
      / arc_rx_abs current rx ry x_axis_rotation end_x end_y)
    ((arc_dy_rotated current x_axis_rotation end_x end_y
        - arc_center_y_rotated current rx ry x_axis_rotation large_arc sweep end_x end_y)
      / arc_ry_abs current rx ry x_axis_rotation end_x end_y)

/-- Stage of `ellipse_support_calc`: `start_angle`. -/
def arc_start_angle (current : Point) (rx ry x_axis_rotation : ℝ) (large_arc sweep : Bool)
    (end_x end_y : ℝ) : ℝ :=
  angle_between (Point.new 1 0)
    (arc_start_vector current rx ry x_axis_rotation large_arc sweep end_x end_y)

/-- Stage of `ellipse_support_calc`: `end_vector`. -/
def arc_end_vector (current : Point) (rx ry x_axis_rotation : ℝ) (large_arc sweep : Bool)
    (end_x end_y : ℝ) : Point :=
  Point.new
    ((-arc_dx_rotated current x_axis_rotation end_x end_y
        - arc_center_x_rotated current rx ry x_axis_rotation large_arc sweep end_x end_y)
      / arc_rx_abs current rx ry x_axis_rotation end_x end_y)
    ((-arc_dy_rotated current x_axis_rotation end_x end_y
        - arc_center_y_rotated current rx ry x_axis_rotation large_arc sweep end_x end_y)
      / arc_ry_abs current rx ry x_axis_rotation end_x end_y)

/-- Stage of `ellipse_support_calc`: the raw `sweep_angle` before the
sign adjustment and the final reduction mod `2π`. -/
def arc_sweep_angle_raw (current : Point) (rx ry x_axis_rotation : ℝ) (large_arc sweep : Bool)
    (end_x end_y : ℝ) : ℝ :=
  angle_between (arc_start_vector current rx ry x_axis_rotation large_arc sweep end_x end_y)
    (arc_end_vector current rx ry x_axis_rotation large_arc sweep end_x end_y)

/-- Stage of `ellipse_support_calc`: the final `sweep_angle` after the
`±2π` sign adjustment and the reduction mod `2π` (Rust `%`). -/
def arc_sweep_angle (current : Point) (rx ry x_axis_rotation : ℝ) (large_arc sweep : Bool)
    (end_x end_y : ℝ) : ℝ :=
  let raw := arc_sweep_angle_raw current rx ry x_axis_rotation large_arc sweep end_x end_y
  let adjusted :=
    if sweep = false ∧ raw > 0 then raw - 2 * Real.pi
    else if sweep = true ∧ raw < 0 then raw + 2 * Real.pi
    else raw
  fmod adjusted (2 * Real.pi)

/-- Model of `ellipse_support_calc` from `math.rs`: the SVG
endpoint-to-center arc parameterization, returning the same 7-tuple
`(start_angle, sweep_angle, rx_abs, ry_abs, x_rad_rotation, center_x,
center_y)` as the Rust function, assembled from the stages above. -/
def ellipse_support_calc (current : Point) (rx ry x_axis_rotation : ℝ)
    (large_arc sweep : Bool) (end_x end_y : ℝ) : ℝ × ℝ × ℝ × ℝ × ℝ × ℝ × ℝ :=
  (arc_start_angle current rx ry x_axis_rotation large_arc sweep end_x end_y,
   arc_sweep_angle current rx ry x_axis_rotation large_arc sweep end_x end_y,
   arc_rx_abs current rx ry x_axis_rotation end_x end_y,
   arc_ry_abs current rx ry x_axis_rotation end_x end_y,
   arc_x_rad_rotation x_axis_rotation,
   arc_center_x current rx ry x_axis_rotation large_arc sweep end_x end_y,
   arc_center_y current rx ry x_axis_rotation large_arc sweep end_x end_y)

/-- Model of `MoveType` from `svg_curve.rs`. -/
inductive MoveType
  | Fly
  | Draw
  | Erase
deriving DecidableEq

/-- Model of `SupportPoint` from `svg_curve.rs`: the trailing control point
of the most recent curve, tagged with the command that produced it. -/
structure SupportPoint where
  path_command : PathCommand
  point : Point

/-- Model of the public output enum `LineTo` from `svg_curve.rs`: an
emitted point tagged `Fly`, `Draw` or `Erase`. -/
inductive LineTo
  | Fly (p : Point)
  | Draw (p : Point)
  | Erase (p : Point)

/-- Model of `LineTo::new`. -/
def LineTo.new (point : Point) (move_type : MoveType) : LineTo :=
  match move_type with
  | .Fly => .Fly point
  | .Draw => .Draw point
  | .Erase => .Erase point

/-- Model of `EmptyPointIterator`. -/
structure EmptyPointIterator where
  endP : Point

/-- Model of `LinePointIterator`. -/
structure LinePointIterator where
  endP : Point
  move_type : MoveType
  done : Bool
  support_point : Option SupportPoint

/-- Model of `LinePointIterator::new`. -/
def LinePointIterator.new (endP : Point) (move_type : MoveType) : LinePointIterator :=
  ⟨endP, move_type, false, none⟩

/-- Model of `LinePointIterator::with_support`. -/
def LinePointIterator.with_support (endP : Point) (move_type : MoveType)
    (support_point : Option SupportPoint) : LinePointIterator :=
  ⟨endP, move_type, false, support_point⟩

/-- Model of `SquareCurvePointIterator`. -/
structure SquareCurvePointIterator where
  time : TickTimer
  calc_formula : SquareCurve
  support_point : Option SupportPoint

/-- Model of `CubicCurvePointIterator`. -/
structure CubicCurvePointIterator where
  time : TickTimer
  calc_formula : CubicCurve
  support_point : Option SupportPoint

/-- Model of `EllipsePointIterator`. -/
structure EllipsePointIterator where
  time : TickTimer
  calc_formula : EllipseCurve
  endP : Point

/-- Model of the `PointIterator` enum from `svg_curve.rs`. -/
inductive PointIterator
  | Empty (it : EmptyPointIterator)
  | Line (it : LinePointIterator)
  | SquareCurve (it : SquareCurvePointIterator)
  | CubicCurve (it : CubicCurvePointIterator)
  | EllipseCurve (it : EllipsePointIterator)

/-- Model of `PointIterator::support_point` (always an absolute point). -/
def PointIterator.support_point : PointIterator → Option SupportPoint
  | .Empty _ => none
  | .Line iter => iter.support_point
  | .SquareCurve iter => iter.support_point
  | .CubicCurve iter => iter.support_point
  | .EllipseCurve _ => none

/-- Model of `PointIterator::end_position`. -/
def PointIterator.end_position : PointIterator → Point
  | .Empty iter => iter.endP
  | .Line iter => iter.endP
  | .SquareCurve iter => iter.calc_formula.atTime 1.0
  | .CubicCurve iter => iter.calc_formula.atTime 1.0
  | .EllipseCurve iter => iter.endP

/-- Model of `PointIterator::move_type`. -/
def PointIterator.move_type : PointIterator → MoveType
  | .Empty _ => .Fly
  | .Line iter => iter.move_type
  | .SquareCurve _ => .Draw
  | .CubicCurve _ => .Draw
  | .EllipseCurve _ => .Draw

/-- Denotation of `Iterator::next for PointIterator`: the full finite list
of points the iterator yields.  The `Empty` variant yields nothing; a
`Line` variant yields its end point once (none if already `done`); each
curve variant yields its formula evaluated at every remaining tick of its
`TickTimer`. -/
def PointIterator.points : PointIterator → List Point
  | .Empty _ => []
  | .Line iter => if iter.done then [] else [iter.endP]
  | .SquareCurve iter => iter.time.list.map iter.calc_formula.atTime
  | .CubicCurve iter => iter.time.list.map iter.calc_formula.atTime
  | .EllipseCurve iter => iter.time.list.map iter.calc_formula.atTime

/-- Model of `absolute_point_coord` from `svg_curve.rs`: resolve a
possibly-relative coordinate pair against the current cursor. -/
def absolute_point_coord (start : Point) (ab : Bool) (x y : ℝ) : Point :=
  match ab with
  | true => ⟨x, y⟩
  | false => Point.mk x y + start

/-- Model of `move_to` from `svg_curve.rs`. -/
def move_to (current : Point) (ab : Bool) (x y : ℝ) : PointIterator :=
  let end_point := absolute_point_coord current ab x y
  .Line (LinePointIterator.new end_point .Fly)

/-- Model of `line_to` from `svg_curve.rs`. -/
def line_to (current : Point) (ab : Bool) (x y : ℝ) : PointIterator :=
  let end_point := absolute_point_coord current ab x y
  .Line (LinePointIterator.new end_point .Draw)

/-- Model of the `CurveType` enum from `svg_curve.rs`. -/
inductive CurveType
  | Cubic
  | Quadratic

/-- Model of `path_command_condition`: does the previous support point's
tag belong to the curve family being mirrored? -/
def path_command_condition (prev_support_point : SupportPoint) : CurveType → Prop
  | .Cubic =>
      prev_support_point.path_command = PathCommand.SmoothCurveTo
        ∨ prev_support_point.path_command = PathCommand.CurveTo
  | .Quadratic =>
      prev_support_point.path_command = PathCommand.SmoothQuadratic
        ∨ prev_support_point.path_command = PathCommand.Quadratic

/-- Model of `mirrored_point`: the (possibly still relative) first control
point synthesized for a smooth curve command by reflecting the previous
support point about the current point. -/
def mirrored_point (current : Point) (ab : Bool)
    (prev_support_point_opt : Option SupportPoint) (curve_type : CurveType) : Point :=
  let mirrored :=
    match prev_support_point_opt with
    | some prev_support_point =>
        if path_command_condition prev_support_point curve_type then
          current - prev_support_point.point
        else Point.ZERO
    | none => Point.ZERO
  if ab then mirrored + current else mirrored

/-- Composition appearing in `smooth_cubic_curve_to` /
`smooth_quadratic_curve_to`: the mirrored point is handed to
`cubic_curve_to` / `quadratic_curve_to` as a raw coordinate pair, which
those functions then resolve through `absolute_point_coord`.  This
definition names that composition: the resolved absolute first control
point of a smooth curve command. -/
def resolved_first_control (current : Point) (ab : Bool)
    (prev_support_point_opt : Option SupportPoint) (curve_type : CurveType) : Point :=
  absolute_point_coord current ab
    (mirrored_point current ab prev_support_point_opt curve_type).x
    (mirrored_point current ab prev_support_point_opt curve_type).y

/-- Model of `cubic_curve_to` from `svg_curve.rs`. -/
def cubic_curve_to (current : Point) (ab : Bool) (x1 y1 x2 y2 x y : ℝ)
    (next_segment : PathSegment) : PointIterator :=
  let time := TickTimer.default
  let p1 := absolute_point_coord current ab x1 y1
  let p2 := absolute_point_coord current ab x2 y2
  let end_point := absolute_point_coord current ab x y
  let support_point := some (SupportPoint.mk next_segment.cmd p2)
  if is_point_on_lane current end_point p1 ∧ is_point_on_lane current end_point p2 then
    .Line (LinePointIterator.with_support end_point .Draw support_point)
  else
    .CubicCurve ⟨time, CubicCurve.new current p1 p2 end_point, support_point⟩

/-- Model of `smooth_cubic_curve_to` from `svg_curve.rs`. -/
def smooth_cubic_curve_to (current : Point) (ab : Bool) (x2 y2 x y : ℝ)
    (prev_support_point_opt : Option SupportPoint) (next_segment : PathSegment) :
    PointIterator :=
  let p1 := mirrored_point current ab prev_support_point_opt .Cubic
  cubic_curve_to current ab p1.x p1.y x2 y2 x y next_segment

/-- Model of `quadratic_curve_to` from `svg_curve.rs`. -/
def quadratic_curve_to (current : Point) (ab : Bool) (x1 y1 x y : ℝ)
    (next_segment : PathSegment) : PointIterator :=
  let time := TickTimer.default
  let p1 := absolute_point_coord current ab x1 y1
  let end_point := absolute_point_coord current ab x y
  let support_point := some (SupportPoint.mk next_segment.cmd (Point.mk p1.x p1.y))
  if is_point_on_lane current end_point p1 then
    .Line (LinePointIterator.with_support end_point .Draw support_point)
  else
    .SquareCurve ⟨time, SquareCurve.new current p1 end_point, support_point⟩

/-- Model of `smooth_quadratic_curve_to` from `svg_curve.rs`. -/
def smooth_quadratic_curve_to (current : Point) (ab : Bool) (x y : ℝ)
    (prev_support_point_opt : Option SupportPoint) (next_segment : PathSegment) :
    PointIterator :=
  let p1 := mirrored_point current ab prev_support_point_opt .Quadratic
  quadratic_curve_to current ab p1.x p1.y x y next_segment

/-- Model of `ellipse_curve_to` from `svg_curve.rs`: coincident endpoints
yield the empty iterator (cursor still records the end point); a zero
radius degrades to a straight line; otherwise the arc is parameterized by
`ellipse_support_calc` and sampled. -/
def ellipse_curve_to (current : Point) (ab : Bool) (rx ry x_axis_rotation : ℝ)
    (large_arc sweep : Bool) (end_x end_y : ℝ) : PointIterator :=
  let time := TickTimer.default
  let end_point := absolute_point_coord current ab end_x end_y
  if current = end_point then
    .Empty ⟨end_point⟩
  else if rx = 0 ∨ ry = 0 then
    line_to current ab end_x end_y
  else
    match ellipse_support_calc current rx ry x_axis_rotation large_arc sweep
        end_point.x end_point.y with
    | (start_angle, sweep_angle, rx_abs, ry_abs, x_rad_rotation, center_x, center_y) =>
      .EllipseCurve
        ⟨time,
         EllipseCurve.new start_angle sweep_angle rx_abs ry_abs x_rad_rotation center_x center_y,
         end_point⟩

/-- Model of `calc_point_iterator` from `svg_curve.rs`: dispatch on the
segment kind, given the current cursor, the previous support point and the
subpath start anchor. -/
def calc_point_iterator (current : Point) (next_segment : PathSegment)
    (prev_support_point_opt : Option SupportPoint) (path_start_point : Point) :
    PointIterator :=
  match next_segment with
  | .MoveTo ab x y => move_to current ab x y
  | .LineTo ab x y => line_to current ab x y
  | .HorizontalLineTo ab x =>
      let miss_coord := if ab then current.y else 0
      line_to current ab x miss_coord
  | .VerticalLineTo ab y =>
      let miss_coord := if ab then current.x else 0
      line_to current ab miss_coord y
  | .CurveTo ab x1 y1 x2 y2 x y => cubic_curve_to current ab x1 y1 x2 y2 x y next_segment
  | .SmoothCurveTo ab x2 y2 x y =>
      smooth_cubic_curve_to current ab x2 y2 x y prev_support_point_opt next_segment
  | .Quadratic ab x1 y1 x y => quadratic_curve_to current ab x1 y1 x y next_segment
  | .SmoothQuadratic ab x y =>
      smooth_quadratic_curve_to current ab x y prev_support_point_opt next_segment
  | .EllipticalArc ab rx ry x_axis_rotation large_arc sweep x y =>
      ellipse_curve_to current ab rx ry x_axis_rotation large_arc sweep x y
  | .ClosePath _ => line_to current true path_start_point.x path_start_point.y

/-- The interpreter's cross-segment mutable state in
`points_from_path_segments`: current cursor, previous support point,
subpath start anchor and its initialization flag. -/
structure PathState where
  current_point : Point
  prev_support_point_opt : Option SupportPoint
  path_start_point : Point
  path_start_point_initialized : Bool

/-- The initial interpreter state of `points_from_path_segments`:
cursor and anchor at the origin, no support point, anchor not yet set. -/
def initState : PathState := ⟨Point.ZERO, none, Point.ZERO, false⟩

/-- Denotation of the body of the `flat_map` closure in
`points_from_path_segments`: processing one segment from a given state
yields the emitted points of that segment and the updated state. -/
def stepSegment (st : PathState) (path_segment : PathSegment) : List LineTo × PathState :=
  let point_iterator := calc_point_iterator st.current_point path_segment
    st.prev_support_point_opt st.path_start_point
  let prev_support_point_opt := point_iterator.support_point
  let current_point := point_iterator.end_position
  let stInit :=
    if st.path_start_point_initialized = false ∧ path_segment.cmd ≠ PathCommand.ClosePath then
      (true, current_point)
    else if path_segment.cmd = PathCommand.ClosePath then
      (false, st.path_start_point)
    else
      (st.path_start_point_initialized, st.path_start_point)
  let move_type := point_iterator.move_type
  (point_iterator.points.map (fun point => LineTo.new point move_type),
   ⟨current_point, prev_support_point_opt, stInit.2, stInit.1⟩)

/-- Denotation of the segment loop of `points_from_path_segments` from an
arbitrary state: concatenation of each segment's emission, threading the
state left to right. -/
def runPath : PathState → List PathSegment → List LineTo
  | _, [] => []
  | st, path_segment :: rest =>
      (stepSegment st path_segment).1 ++ runPath (stepSegment st path_segment).2 rest

/-- Model of the public `points_from_path_segments`: interpret a segment
list starting from the initial state. -/
def points_from_path_segments (path_segments : List PathSegment) : List LineTo :=
  runPath initState path_segments

/-! From here on, theorems only: general lemmas about the embedded
definitions first, then one theorem per claim (with witnesses and
scenario checks). -/

/-- Componentwise extensionality for `Point`. -/
@[ext] theorem Point.ext' {a b : Point} (hx : a.x = b.x) (hy : a.y = b.y) : a = b := by
  cases a; cases b; simp_all

@[simp] theorem Point.add_x (a b : Point) : (a + b).x = a.x + b.x := rfl

@[simp] theorem Point.add_y (a b : Point) : (a + b).y = a.y + b.y := rfl

@[simp] theorem Point.sub_x (a b : Point) : (a - b).x = a.x - b.x := rfl

@[simp] theorem Point.sub_y (a b : Point) : (a - b).y = a.y - b.y := rfl

@[simp] theorem Point.smul_x (a : Point) (c : ℝ) : (a * c).x = a.x * c := rfl

@[simp] theorem Point.smul_y (a : Point) (c : ℝ) : (a * c).y = a.y * c := rfl

/-- Unfolding equation for `TickTimer.list`. -/
theorem TickTimer.list_unfold (t : TickTimer) :
    TickTimer.list t =
      if t.time > 1.0 then []
      else t.time :: TickTimer.list ⟨t.time + TickTimer.TICK_PERIOD⟩ := by
  rw [TickTimer.list]
  split <;> rfl

/-- Closed form of the tick list started at `j * 0.001` for `j ≤ 1001`. -/
theorem TickTimer.list_from (n j : ℕ) (hjn : j + n = 1001) :
    TickTimer.list ⟨(j : ℝ) * 0.001⟩ =
      (List.range n).map (fun i => ((j + i : ℕ) : ℝ) * 0.001) := by
  induction n generalizing j with
  | zero =>
    rw [TickTimer.list_unfold]
    have hj : j = 1001 := by omega
    subst hj
    have hgt : ((1001 : ℕ) : ℝ) * 0.001 > 1.0 := by norm_num
    rw [if_pos hgt]
    simp
  | succ m ih =>
    rw [TickTimer.list_unfold]
    have hj : j ≤ 1000 := by omega
    have hle : (j : ℝ) * 0.001 ≤ 1.0 := by
      have : (j : ℝ) ≤ 1000 := by exact_mod_cast hj
      nlinarith
    have hnot : ¬ ((j : ℝ) * 0.001 > 1.0) := not_lt.mpr hle
    simp only [hnot, if_false]
    have hstep : (j : ℝ) * 0.001 + TickTimer.TICK_PERIOD = ((j + 1 : ℕ) : ℝ) * 0.001 := by
      simp only [TickTimer.TICK_PERIOD]
      push_cast
      ring
    rw [hstep, ih (j + 1) (by omega)]
    rw [List.range_succ_eq_map]
    simp only [List.map_cons, List.map_map]
    rw [List.cons.injEq]
    refine ⟨by push_cast; norm_num, ?_⟩
    apply List.map_congr_left
    intro i _
    simp only [Function.comp_apply]
    push_cast
    ring_nf

/-- Tick list of a fresh (`Default`) timer: exactly the 1001 values
`0, 0.001, …, 1.0`. -/
theorem TickTimer.list_default :
    TickTimer.list TickTimer.default =
      (List.range 1001).map (fun i : ℕ => (i : ℝ) * 0.001) := by
  have h0 : TickTimer.default = ⟨((0 : ℕ) : ℝ) * 0.001⟩ := by
    show (⟨0.0⟩ : TickTimer) = _
    norm_num
  rw [h0, TickTimer.list_from 1001 0 (by omega)]
  apply List.map_congr_left
  intro i _
  norm_num

/-- The fresh tick list ends with the exact value `1.0`. -/
theorem TickTimer.list_default_getLast :
    (TickTimer.list TickTimer.default).getLast? = some 1.0 := by
  rw [TickTimer.list_default]
  have h : List.range 1001 = List.range 1000 ++ [1000] := by
    rw [show (1001 : ℕ) = 1000 + 1 by norm_num, List.range_succ]
  rw [h, List.map_append, List.map_singleton, List.getLast?_concat]
  norm_num

/-- C4: the tick sequence of a fresh `TickTimer` starts at `0.0`, each
subsequent value is the previous one plus the fixed step `0.001`, it is
strictly increasing, every yielded value stays `≤ 1.0` (iteration stops as
soon as a value would exceed `1.0`), the whole sequence is the fixed
1001-element list `0, 0.001, …, 1.0` (independent of any curve, since the
timer has no other input), and a timer whose state has passed `1.0` never
yields another value and yields the empty remaining sequence. -/
theorem C4_tick_sampler :
    TickTimer.list TickTimer.default
        = (List.range 1001).map (fun i : ℕ => (i : ℝ) * 0.001)
    ∧ (TickTimer.list TickTimer.default).length = 1001
    ∧ (TickTimer.list TickTimer.default).head? = some 0.0
    ∧ List.Chain' (fun a b => b = a + 0.001) (TickTimer.list TickTimer.default)
    ∧ List.Pairwise (fun a b : ℝ => a < b) (TickTimer.list TickTimer.default)
    ∧ (∀ v ∈ TickTimer.list TickTimer.default, v ≤ 1.0)
    ∧ (∀ t : TickTimer, t.time > 1.0 → t.next = (none, t) ∧ t.list = []) := by
  refine ⟨TickTimer.list_default, ?_, ?_, ?_, ?_, ?_, ?_⟩
  · rw [TickTimer.list_default]; simp
  · rw [TickTimer.list_default]
    rw [show (1001 : ℕ) = 1000 + 1 by norm_num, List.range_succ_eq_map]
    simp
    norm_num
  · rw [TickTimer.list_default, List.chain'_map]
    have h3 : Nat.succ 1000 = 1001 := by omega
    rw [← h3]
    refine (List.chain'_range_succ _ 1000).mpr ?_
    intro i _
    push_cast
    ring
  · rw [TickTimer.list_default]
    refine List.Pairwise.map _ ?_ (List.pairwise_lt_range 1001)
    intro a b hab
    have hc : (a : ℝ) < b := by exact_mod_cast hab
    nlinarith
  · rw [TickTimer.list_default]
    intro v hv
    simp only [List.mem_map, List.mem_range] at hv
    obtain ⟨i, hi, rfl⟩ := hv
    have hc : (i : ℝ) ≤ 1000 := by exact_mod_cast Nat.lt_succ_iff.mp hi
    nlinarith
  · intro t ht
    refine ⟨?_, ?_⟩
    · simp [TickTimer.next, ht]
    · rw [TickTimer.list_unfold, if_pos ht]

/-- C7: after processing a segment, the interpreter state carries a
support point exactly when that segment was a `CurveTo`, `SmoothCurveTo`,
`Quadratic` or `SmoothQuadratic` (including the lane-test degradation to a
line); `MoveTo`, `LineTo`, `HorizontalLineTo`, `VerticalLineTo`,
`ClosePath` and `EllipticalArc` leave none. -/
theorem C7_support_point (st : PathState) (seg : PathSegment) :
    (stepSegment st seg).2.prev_support_point_opt.isSome = true ↔
      (seg.cmd = PathCommand.CurveTo ∨ seg.cmd = PathCommand.SmoothCurveTo
        ∨ seg.cmd = PathCommand.Quadratic ∨ seg.cmd = PathCommand.SmoothQuadratic) := by
  have hstep : (stepSegment st seg).2.prev_support_point_opt
      = (calc_point_iterator st.current_point seg st.prev_support_point_opt
          st.path_start_point).support_point := rfl
  rw [hstep]
  cases seg with
  | MoveTo ab x y =>
    simp [calc_point_iterator, move_to, PointIterator.support_point,
      LinePointIterator.new, PathSegment.cmd]
  | LineTo ab x y =>
    simp [calc_point_iterator, line_to, PointIterator.support_point,
      LinePointIterator.new, PathSegment.cmd]
  | HorizontalLineTo ab x =>
    simp [calc_point_iterator, line_to, PointIterator.support_point,
      LinePointIterator.new, PathSegment.cmd]
  | VerticalLineTo ab y =>
    simp [calc_point_iterator, line_to, PointIterator.support_point,
      LinePointIterator.new, PathSegment.cmd]
  | CurveTo ab x1 y1 x2 y2 x y =>
    simp only [calc_point_iterator, cubic_curve_to]
    split_ifs <;>
      simp [PointIterator.support_point, LinePointIterator.with_support, PathSegment.cmd]
  | SmoothCurveTo ab x2 y2 x y =>
    simp only [calc_point_iterator, smooth_cubic_curve_to, cubic_curve_to]
    split_ifs <;>
      simp [PointIterator.support_point, LinePointIterator.with_support, PathSegment.cmd]
  | Quadratic ab x1 y1 x y =>
    simp only [calc_point_iterator, quadratic_curve_to]
    split_ifs <;>
      simp [PointIterator.support_point, LinePointIterator.with_support, PathSegment.cmd]
  | SmoothQuadratic ab x y =>
    simp only [calc_point_iterator, smooth_quadratic_curve_to, quadratic_curve_to]
    split_ifs <;>
      simp [PointIterator.support_point, LinePointIterator.with_support, PathSegment.cmd]
  | EllipticalArc ab rx ry rot la sw x y =>
    simp only [calc_point_iterator, ellipse_curve_to]
    split_ifs <;>
      simp [PointIterator.support_point, line_to, LinePointIterator.new,
        ellipse_support_calc, PathSegment.cmd]
  | ClosePath ab =>
    simp [calc_point_iterator, line_to, PointIterator.support_point,
      LinePointIterator.new, PathSegment.cmd]

/-- C8: a `ClosePath` segment emits exactly one `Draw` point equal to the
active subpath's start anchor; the anchor is set (with its flag) exactly
on the first non-`ClosePath` segment processed while the flag is down, to
that segment's end position; while the flag is up and the segment is not a
`ClosePath`, anchor and flag are unchanged; a `ClosePath` resets the flag
and leaves the anchor value itself unchanged. -/
theorem C8_close_path_anchor (st : PathState) (seg : PathSegment) (ab : Bool) :
    (stepSegment st (PathSegment.ClosePath ab)).1 = [LineTo.Draw st.path_start_point]
    ∧ (st.path_start_point_initialized = false → seg.cmd ≠ PathCommand.ClosePath →
        (stepSegment st seg).2.path_start_point
            = (calc_point_iterator st.current_point seg st.prev_support_point_opt
                st.path_start_point).end_position
          ∧ (stepSegment st seg).2.path_start_point_initialized = true)
    ∧ (st.path_start_point_initialized = true → seg.cmd ≠ PathCommand.ClosePath →
        (stepSegment st seg).2.path_start_point = st.path_start_point
          ∧ (stepSegment st seg).2.path_start_point_initialized = true)
    ∧ (seg.cmd = PathCommand.ClosePath →
        (stepSegment st seg).2.path_start_point = st.path_start_point
          ∧ (stepSegment st seg).2.path_start_point_initialized = false) := by
  refine ⟨?_, ?_, ?_, ?_⟩
  · simp [stepSegment, calc_point_iterator, line_to, LinePointIterator.new,
      absolute_point_coord, PointIterator.points, PointIterator.move_type, LineTo.new]
  · intro hflag hcmd
    simp [stepSegment, hflag, hcmd]
  · intro hflag hcmd
    simp [stepSegment, hflag, hcmd]
  · intro hcmd
    by_cases hflag : st.path_start_point_initialized = false <;>
      simp [stepSegment, hflag, hcmd]

/-- C10: interpretation starts with cursor and subpath anchor at the
origin; a first relative segment is resolved as an offset from `(0,0)`;
and a `ClosePath` before any other segment emits exactly one `Draw` point
at `(0,0)` (and leaves the interpreter back in the initial state, so the
remaining segments behave as a fresh sequence). -/
theorem C10_initial_state (ab : Bool) (x y : ℝ) (rest : List PathSegment) :
    initState.current_point = Point.ZERO
    ∧ initState.path_start_point = Point.ZERO
    ∧ (stepSegment initState (PathSegment.LineTo false x y)).1
        = [LineTo.Draw (Point.mk x y + Point.ZERO)]
    ∧ points_from_path_segments (PathSegment.ClosePath ab :: rest)
        = LineTo.Draw Point.ZERO :: points_from_path_segments rest := by
  refine ⟨rfl, rfl, ?_, ?_⟩
  · simp [stepSegment, calc_point_iterator, line_to, LinePointIterator.new,
      absolute_point_coord, PointIterator.points, PointIterator.move_type, LineTo.new,
      initState]
  · have hstep : stepSegment initState (PathSegment.ClosePath ab)
        = ([LineTo.Draw Point.ZERO], initState) := by
      simp [stepSegment, calc_point_iterator, line_to, LinePointIterator.new,
        absolute_point_coord, PointIterator.points, PointIterator.move_type, LineTo.new,
        PointIterator.support_point, PointIterator.end_position, initState,
        PathSegment.cmd, Point.ZERO]
    show runPath initState (PathSegment.ClosePath ab :: rest) = _
    rw [runPath, hstep]
    rfl

/-- C3: for smooth curve commands, when the previous support point's tag
matches the curve family (CurveTo/SmoothCurveTo for cubic,
Quadratic/SmoothQuadratic for quadratic), the resolved absolute first
control point is the reflection `2 * current - support.point` of the
support point about the current point, in both absolute and relative
forms; with a non-matching tag, or no support point at all, it is the
current point itself. -/
theorem C3_smooth_mirror (current : Point) (ab : Bool) (sp : SupportPoint) (ct : CurveType) :
    ((sp.path_command = PathCommand.CurveTo ∨ sp.path_command = PathCommand.SmoothCurveTo) →
      resolved_first_control current ab (some sp) CurveType.Cubic
        = current * (2 : ℝ) - sp.point)
    ∧ (sp.path_command ≠ PathCommand.CurveTo → sp.path_command ≠ PathCommand.SmoothCurveTo →
      resolved_first_control current ab (some sp) CurveType.Cubic = current)
    ∧ ((sp.path_command = PathCommand.Quadratic ∨ sp.path_command = PathCommand.SmoothQuadratic) →
      resolved_first_control current ab (some sp) CurveType.Quadratic
        = current * (2 : ℝ) - sp.point)
    ∧ (sp.path_command ≠ PathCommand.Quadratic → sp.path_command ≠ PathCommand.SmoothQuadratic →
      resolved_first_control current ab (some sp) CurveType.Quadratic = current)
    ∧ resolved_first_control current ab none ct = current := by
  have habs : ∀ m : Point, absolute_point_coord current ab m.x m.y
      = if ab then m else m + current := by
    intro m
    cases ab <;> simp [absolute_point_coord]
  refine ⟨?_, ?_, ?_, ?_, ?_⟩
  · intro hmatch
    have hcond : path_command_condition sp CurveType.Cubic := hmatch.elim Or.inr Or.inl
    simp only [resolved_first_control, mirrored_point, if_pos hcond, habs]
    cases ab <;> · ext <;> simp <;> ring
  · intro h1 h2
    have hcond : ¬ path_command_condition sp CurveType.Cubic := by
      simp [path_command_condition, h1, h2]
    simp only [resolved_first_control, mirrored_point, if_neg hcond, habs]
    cases ab <;> · ext <;> simp [Point.ZERO]
  · intro hmatch
    have hcond : path_command_condition sp CurveType.Quadratic := hmatch.elim Or.inr Or.inl
    simp only [resolved_first_control, mirrored_point, if_pos hcond, habs]
    cases ab <;> · ext <;> simp <;> ring
  · intro h1 h2
    have hcond : ¬ path_command_condition sp CurveType.Quadratic := by
      simp [path_command_condition, h1, h2]
    simp only [resolved_first_control, mirrored_point, if_neg hcond, habs]
    cases ab <;> · ext <;> simp [Point.ZERO]
  · simp only [resolved_first_control, mirrored_point, habs]
    cases ab <;> · ext <;> simp [Point.ZERO]

/-- C2: a cubic (or smooth cubic) segment whose two resolved absolute
control points both pass the lane test against the chord from the current
point to the resolved end, and a quadratic (or smooth quadratic) segment
whose resolved control point passes that test, emit exactly one `Draw`
point equal to the resolved end, with no intermediate samples. -/
theorem C2_lane_degradation (current : Point) (ab : Bool) (x1 y1 x2 y2 x y : ℝ)
    (prev : Option SupportPoint) (seg : PathSegment) :
    ((is_point_on_lane current (absolute_point_coord current ab x y)
        (absolute_point_coord current ab x1 y1) →
      is_point_on_lane current (absolute_point_coord current ab x y)
        (absolute_point_coord current ab x2 y2) →
      (cubic_curve_to current ab x1 y1 x2 y2 x y seg).points
          = [absolute_point_coord current ab x y]
        ∧ (cubic_curve_to current ab x1 y1 x2 y2 x y seg).move_type = MoveType.Draw))
    ∧ ((is_point_on_lane current (absolute_point_coord current ab x y)
        (absolute_point_coord current ab x1 y1) →
      (quadratic_curve_to current ab x1 y1 x y seg).points
          = [absolute_point_coord current ab x y]
        ∧ (quadratic_curve_to current ab x1 y1 x y seg).move_type = MoveType.Draw))
    ∧ ((is_point_on_lane current (absolute_point_coord current ab x y)
        (resolved_first_control current ab prev CurveType.Cubic) →
      is_point_on_lane current (absolute_point_coord current ab x y)
        (absolute_point_coord current ab x2 y2) →
      (smooth_cubic_curve_to current ab x2 y2 x y prev seg).points
          = [absolute_point_coord current ab x y]
        ∧ (smooth_cubic_curve_to current ab x2 y2 x y prev seg).move_type = MoveType.Draw))
    ∧ ((is_point_on_lane current (absolute_point_coord current ab x y)
        (resolved_first_control current ab prev CurveType.Quadratic) →
      (smooth_quadratic_curve_to current ab x y prev seg).points
          = [absolute_point_coord current ab x y]
        ∧ (smooth_quadratic_curve_to current ab x y prev seg).move_type = MoveType.Draw)) := by
  refine ⟨?_, ?_, ?_, ?_⟩
  · intro h1 h2
    simp only [cubic_curve_to, if_pos (And.intro h1 h2)]
    simp [PointIterator.points, PointIterator.move_type, LinePointIterator.with_support]
  · intro h1
    simp only [quadratic_curve_to, if_pos h1]
    simp [PointIterator.points, PointIterator.move_type, LinePointIterator.with_support]
  · intro h1 h2
    simp only [resolved_first_control] at h1
    simp only [smooth_cubic_curve_to, cubic_curve_to]
    rw [if_pos (And.intro h1 h2)]
    simp [PointIterator.points, PointIterator.move_type, LinePointIterator.with_support]
  · intro h1
    simp only [resolved_first_control] at h1
    simp only [smooth_quadratic_curve_to, quadratic_curve_to]
    rw [if_pos h1]
    simp [PointIterator.points, PointIterator.move_type, LinePointIterator.with_support]

/-- C6: an elliptical arc whose resolved end equals the current point
emits no point while the cursor still advances to that end point; an
elliptical arc with a zero radius (and distinct endpoints) emits exactly
one `Draw` point at the resolved end.  Both are ordinary returns of the
total function `ellipse_curve_to`: no error is raised. -/
theorem C6_arc_degenerate (st : PathState) (ab : Bool) (rx ry rot : ℝ) (la sw : Bool)
    (x y : ℝ) :
    (absolute_point_coord st.current_point ab x y = st.current_point →
      (stepSegment st (PathSegment.EllipticalArc ab rx ry rot la sw x y)).1 = []
        ∧ (stepSegment st (PathSegment.EllipticalArc ab rx ry rot la sw x y)).2.current_point
            = absolute_point_coord st.current_point ab x y)
    ∧ (absolute_point_coord st.current_point ab x y ≠ st.current_point →
      (rx = 0 ∨ ry = 0) →
      (stepSegment st (PathSegment.EllipticalArc ab rx ry rot la sw x y)).1
          = [LineTo.Draw (absolute_point_coord st.current_point ab x y)]) := by
  constructor
  · intro hend
    have hcur : st.current_point = absolute_point_coord st.current_point ab x y := hend.symm
    constructor
    · show ((calc_point_iterator st.current_point _ _ _).points.map _) = []
      simp only [calc_point_iterator, ellipse_curve_to, if_pos hcur]
      simp [PointIterator.points]
    · show (calc_point_iterator st.current_point _ _ _).end_position = _
      simp only [calc_point_iterator, ellipse_curve_to, if_pos hcur]
      simp [PointIterator.end_position]
  · intro hend hr
    have hcur : ¬ st.current_point = absolute_point_coord st.current_point ab x y :=
      fun h => hend h.symm
    show ((calc_point_iterator st.current_point _ _ _).points.map _) = _
    simp only [calc_point_iterator, ellipse_curve_to, if_neg hcur, if_pos hr]
    simp [line_to, PointIterator.points, PointIterator.move_type, LinePointIterator.new,
      LineTo.new]

/-- C9: in the endpoint-to-center parameterization, whenever the rotated
half-chord check exceeds 1 both radii are scaled by `sqrt check`; the
center radicand is clamped to at least 0 before its square root is taken
(exactly: left unchanged when nonnegative, replaced by 0 when negative);
and the routine is total — for every argument tuple it returns the
7-tuple assembled from its stages, never an error. -/
theorem C9_arc_fallbacks (current : Point) (rx ry rot : ℝ) (la sw : Bool) (ex ey : ℝ) :
    (arc_radii_check current rx ry rot ex ey > 1 →
      arc_rx_abs current rx ry rot ex ey
          = Real.sqrt (arc_radii_check current rx ry rot ex ey) * |rx|
        ∧ arc_ry_abs current rx ry rot ex ey
          = Real.sqrt (arc_radii_check current rx ry rot ex ey) * |ry|)
    ∧ 0 ≤ arc_center_radicand current rx ry rot ex ey
    ∧ (arc_center_radicand_raw current rx ry rot ex ey < 0 →
        arc_center_radicand current rx ry rot ex ey = 0)
    ∧ (0 ≤ arc_center_radicand_raw current rx ry rot ex ey →
        arc_center_radicand current rx ry rot ex ey
          = arc_center_radicand_raw current rx ry rot ex ey)
    ∧ arc_center_coef current rx ry rot la sw ex ey
        = (if la ≠ sw then Real.sqrt (arc_center_radicand current rx ry rot ex ey)
           else -Real.sqrt (arc_center_radicand current rx ry rot ex ey))
    ∧ ellipse_support_calc current rx ry rot la sw ex ey
        = (arc_start_angle current rx ry rot la sw ex ey,
           arc_sweep_angle current rx ry rot la sw ex ey,
           arc_rx_abs current rx ry rot ex ey,
           arc_ry_abs current rx ry rot ex ey,
           arc_x_rad_rotation rot,
           arc_center_x current rx ry rot la sw ex ey,
           arc_center_y current rx ry rot la sw ex ey) := by
  refine ⟨fun h => ⟨if_pos h, if_pos h⟩, ?_, ?_, ?_, rfl, rfl⟩
  · unfold arc_center_radicand
    split_ifs with h
    · exact le_refl 0
    · exact not_lt.mp h
  · intro h
    unfold arc_center_radicand
    exact if_pos h
  · intro h
    unfold arc_center_radicand
    exact if_neg (not_lt.mpr h)

/-- Mapping commutes with `getLast?`. -/
theorem list_getLast?_map {α β : Type} (f : α → β) (l : List α) :
    (l.map f).getLast? = l.getLast?.map f := by
  induction l with
  | nil => rfl
  | cons a t ih =>
    cases t with
    | nil => rfl
    | cons b t2 =>
      simp only [List.map_cons, List.getLast?_cons_cons] at ih ⊢
      simpa using ih

/-- Rotating the half-chord preserves its squared norm. -/
theorem arc_rotated_norm (c : Point) (rot ex ey : ℝ) :
    sqr (arc_dx_rotated c rot ex ey) + sqr (arc_dy_rotated c rot ex ey)
      = sqr (arc_dx c ex) + sqr (arc_dy c ey) := by
  have h := Real.sin_sq_add_cos_sq (arc_x_rad_rotation rot)
  simp only [arc_dx_rotated, arc_dy_rotated, sqr]
  linear_combination
    (arc_dx c ex * arc_dx c ex + arc_dy c ey * arc_dy c ey) * h

/-- For distinct endpoints, the rotated half-chord is not the zero vector. -/
theorem arc_dr_ne_zero (c : Point) (rot ex ey : ℝ) (hne : c ≠ Point.mk ex ey) :
    ¬ (arc_dx_rotated c rot ex ey = 0 ∧ arc_dy_rotated c rot ex ey = 0) := by
  rintro ⟨h1, h2⟩
  have hn := arc_rotated_norm c rot ex ey
  rw [h1, h2] at hn
  simp only [sqr] at hn
  have hx0 : arc_dx c ex * arc_dx c ex = 0 := by
    have ha := mul_self_nonneg (arc_dx c ex)
    have hb := mul_self_nonneg (arc_dy c ey)
    linarith
  have hy0 : arc_dy c ey * arc_dy c ey = 0 := by
    have ha := mul_self_nonneg (arc_dx c ex)
    have hb := mul_self_nonneg (arc_dy c ey)
    linarith
  have hx : c.x = ex := by
    have hz := mul_self_eq_zero.mp hx0
    simp only [arc_dx] at hz
    linarith
  have hy : c.y = ey := by
    have hz := mul_self_eq_zero.mp hy0
    simp only [arc_dy] at hz
    linarith
  exact hne (by ext <;> simp [hx, hy])

/-- Squaring written as a power. -/
theorem sqr_eq_sq (t : ℝ) : sqr t = t ^ 2 := (pow_two t).symm

/-- The radii check is nonnegative. -/
theorem arc_check_nonneg (c : Point) (rx ry rot ex ey : ℝ) :
    0 ≤ arc_radii_check c rx ry rot ex ey := by
  simp only [arc_radii_check, sqr_eq_sq]
  positivity

/-- For distinct endpoints and nonzero radii, the radii check is positive. -/
theorem arc_check_pos (c : Point) (rx ry rot ex ey : ℝ) (hrx : rx ≠ 0) (hry : ry ≠ 0)
    (hne : c ≠ Point.mk ex ey) : 0 < arc_radii_check c rx ry rot ex ey := by
  have hd := arc_dr_ne_zero c rot ex ey hne
  have hrx2 : 0 < sqr |rx| := by
    simpa [sqr] using mul_self_pos.mpr (abs_ne_zero.mpr hrx)
  have hry2 : 0 < sqr |ry| := by
    simpa [sqr] using mul_self_pos.mpr (abs_ne_zero.mpr hry)
  unfold arc_radii_check
  rcases not_and_or.mp hd with h | h
  · have hp : 0 < sqr (arc_dx_rotated c rot ex ey) / sqr |rx| := by
      apply div_pos _ hrx2
      simpa [sqr] using mul_self_pos.mpr h
    have hq : 0 ≤ sqr (arc_dy_rotated c rot ex ey) / sqr |ry| := by
      apply div_nonneg _ (le_of_lt hry2)
      simp [sqr, mul_self_nonneg]
    linarith
  · have hp : 0 < sqr (arc_dy_rotated c rot ex ey) / sqr |ry| := by
      apply div_pos _ hry2
      simpa [sqr] using mul_self_pos.mpr h
    have hq : 0 ≤ sqr (arc_dx_rotated c rot ex ey) / sqr |rx| := by
      apply div_nonneg _ (le_of_lt hrx2)
      simp [sqr, mul_self_nonneg]
    linarith

/-- The corrected x-radius is positive when the input radius is nonzero. -/
theorem arc_rx_abs_pos (c : Point) (rx ry rot ex ey : ℝ) (hrx : rx ≠ 0) :
    0 < arc_rx_abs c rx ry rot ex ey := by
  unfold arc_rx_abs
  split_ifs with h
  · exact mul_pos (Real.sqrt_pos.mpr (lt_trans one_pos h)) (abs_pos.mpr hrx)
  · exact abs_pos.mpr hrx

/-- The corrected y-radius is positive when the input radius is nonzero. -/
theorem arc_ry_abs_pos (c : Point) (rx ry rot ex ey : ℝ) (hry : ry ≠ 0) :
    0 < arc_ry_abs c rx ry rot ex ey := by
  unfold arc_ry_abs
  split_ifs with h
  · exact mul_pos (Real.sqrt_pos.mpr (lt_trans one_pos h)) (abs_pos.mpr hry)
  · exact abs_pos.mpr hry

/-- Algebra helper: scaling both denominators of a two-term sum of ratios
by the value of the sum itself renormalizes the sum to 1. -/
theorem scaled_ratio_eq_one (a b p q S : ℝ) (hs : S ≠ 0) (hS : S = a / p + b / q) :
    a / (S * p) + b / (S * q) = 1 := by
  rw [div_mul_eq_div_div_swap, div_mul_eq_div_div_swap, div_add_div_same, ← hS, div_self hs]

/-- The ratio check recomputed against the corrected radii is at most 1:
either the original check was already ≤ 1 and the radii are unchanged, or
the radii were scaled so that the recomputed check is exactly 1. -/
theorem arc_ratio_le_one (c : Point) (rx ry rot ex ey : ℝ) (hrx : rx ≠ 0) (hry : ry ≠ 0)
    (hne : c ≠ Point.mk ex ey) :
    sqr (arc_dx_rotated c rot ex ey) / sqr (arc_rx_abs c rx ry rot ex ey)
      + sqr (arc_dy_rotated c rot ex ey) / sqr (arc_ry_abs c rx ry rot ex ey) ≤ 1 := by
  have hrx2 : sqr |rx| ≠ 0 := by
    simpa [sqr] using ne_of_gt (mul_self_pos.mpr (abs_ne_zero.mpr hrx))
  have hry2 : sqr |ry| ≠ 0 := by
    simpa [sqr] using ne_of_gt (mul_self_pos.mpr (abs_ne_zero.mpr hry))
  have hcheck : arc_radii_check c rx ry rot ex ey
      = sqr (arc_dx_rotated c rot ex ey) / sqr |rx|
        + sqr (arc_dy_rotated c rot ex ey) / sqr |ry| := rfl
  unfold arc_rx_abs arc_ry_abs
  split_ifs with h
  · have hpos : 0 < arc_radii_check c rx ry rot ex ey :=
      arc_check_pos c rx ry rot ex ey hrx hry hne
    have hsq : ∀ r : ℝ, sqr (Real.sqrt (arc_radii_check c rx ry rot ex ey) * r)
        = arc_radii_check c rx ry rot ex ey * sqr r := by
      intro r
      simp only [sqr]
      rw [show Real.sqrt (arc_radii_check c rx ry rot ex ey) * r
            * (Real.sqrt (arc_radii_check c rx ry rot ex ey) * r)
          = Real.sqrt (arc_radii_check c rx ry rot ex ey)
            * Real.sqrt (arc_radii_check c rx ry rot ex ey) * (r * r) by ring,
        Real.mul_self_sqrt (le_of_lt hpos)]
    rw [hsq, hsq]
    exact le_of_eq (scaled_ratio_eq_one (sqr (arc_dx_rotated c rot ex ey))
      (sqr (arc_dy_rotated c rot ex ey)) (sqr |rx|) (sqr |ry|)
      (arc_radii_check c rx ry rot ex ey) (ne_of_gt hpos) hcheck)
  · rw [← hcheck]
    exact le_of_not_lt h

/-- The center-formula denominator is positive for a non-degenerate arc. -/
theorem arc_denom_pos (c : Point) (rx ry rot ex ey : ℝ) (hrx : rx ≠ 0) (hry : ry ≠ 0)
    (hne : c ≠ Point.mk ex ey) :
    0 < sqr (arc_rx_abs c rx ry rot ex ey) * sqr (arc_dy_rotated c rot ex ey)
      + sqr (arc_ry_abs c rx ry rot ex ey) * sqr (arc_dx_rotated c rot ex ey) := by
  have hx2 : 0 < sqr (arc_rx_abs c rx ry rot ex ey) := by
    have hp := arc_rx_abs_pos c rx ry rot ex ey hrx
    simpa [sqr] using mul_pos hp hp
  have hy2 : 0 < sqr (arc_ry_abs c rx ry rot ex ey) := by
    have hp := arc_ry_abs_pos c rx ry rot ex ey hry
    simpa [sqr] using mul_pos hp hp
  rcases not_and_or.mp (arc_dr_ne_zero c rot ex ey hne) with h | h
  · have h1 : 0 < sqr (arc_ry_abs c rx ry rot ex ey) * sqr (arc_dx_rotated c rot ex ey) :=
      mul_pos hy2 (by simpa [sqr] using mul_self_pos.mpr h)
    have h2 : 0 ≤ sqr (arc_rx_abs c rx ry rot ex ey) * sqr (arc_dy_rotated c rot ex ey) :=
      mul_nonneg (le_of_lt hx2) (by simp [sqr, mul_self_nonneg])
    linarith
  · have h1 : 0 < sqr (arc_rx_abs c rx ry rot ex ey) * sqr (arc_dy_rotated c rot ex ey) :=
      mul_pos hx2 (by simpa [sqr] using mul_self_pos.mpr h)
    have h2 : 0 ≤ sqr (arc_ry_abs c rx ry rot ex ey) * sqr (arc_dx_rotated c rot ex ey) :=
      mul_nonneg (le_of_lt hy2) (by simp [sqr, mul_self_nonneg])
    linarith

/-- For a non-degenerate arc the raw center radicand is already
nonnegative (the clamp in the code never fires). -/
theorem arc_raw_nonneg (c : Point) (rx ry rot ex ey : ℝ) (hrx : rx ≠ 0) (hry : ry ≠ 0)
    (hne : c ≠ Point.mk ex ey) :
    0 ≤ arc_center_radicand_raw c rx ry rot ex ey := by
  have hd := arc_denom_pos c rx ry rot ex ey hrx hry hne
  have hratio := arc_ratio_le_one c rx ry rot ex ey hrx hry hne
  have hx2 : 0 < sqr (arc_rx_abs c rx ry rot ex ey) := by
    have hp := arc_rx_abs_pos c rx ry rot ex ey hrx
    simpa [sqr] using mul_pos hp hp
  have hy2 : 0 < sqr (arc_ry_abs c rx ry rot ex ey) := by
    have hp := arc_ry_abs_pos c rx ry rot ex ey hry
    simpa [sqr] using mul_pos hp hp
  have hnum : sqr (arc_rx_abs c rx ry rot ex ey) * sqr (arc_ry_abs c rx ry rot ex ey)
      - sqr (arc_rx_abs c rx ry rot ex ey) * sqr (arc_dy_rotated c rot ex ey)
      - sqr (arc_ry_abs c rx ry rot ex ey) * sqr (arc_dx_rotated c rot ex ey)
      = sqr (arc_rx_abs c rx ry rot ex ey) * sqr (arc_ry_abs c rx ry rot ex ey)
        * (1 - (sqr (arc_dx_rotated c rot ex ey) / sqr (arc_rx_abs c rx ry rot ex ey)
              + sqr (arc_dy_rotated c rot ex ey) / sqr (arc_ry_abs c rx ry rot ex ey))) := by
    field_simp
    ring
  unfold arc_center_radicand_raw
  apply div_nonneg _ (le_of_lt hd)
  rw [hnum]
  have hfac : 0 ≤ 1 - (sqr (arc_dx_rotated c rot ex ey) / sqr (arc_rx_abs c rx ry rot ex ey)
      + sqr (arc_dy_rotated c rot ex ey) / sqr (arc_ry_abs c rx ry rot ex ey)) := by
    linarith
  exact mul_nonneg (mul_nonneg (le_of_lt hx2) (le_of_lt hy2)) hfac

/-- The clamped center radicand is always nonnegative. -/
theorem arc_radicand_nonneg (c : Point) (rx ry rot ex ey : ℝ) :
    0 ≤ arc_center_radicand c rx ry rot ex ey := by
  unfold arc_center_radicand
  split_ifs with h
  · exact le_refl 0
  · exact not_lt.mp h

/-- For a non-degenerate arc the clamp is the identity. -/
theorem arc_radicand_eq_raw (c : Point) (rx ry rot ex ey : ℝ) (hrx : rx ≠ 0) (hry : ry ≠ 0)
    (hne : c ≠ Point.mk ex ey) :
    arc_center_radicand c rx ry rot ex ey = arc_center_radicand_raw c rx ry rot ex ey := by
  unfold arc_center_radicand
  exact if_neg (not_lt.mpr (arc_raw_nonneg c rx ry rot ex ey hrx hry hne))

/-- The squared center coefficient reproduces the raw radicand. -/
theorem arc_coef_sq (c : Point) (rx ry rot : ℝ) (la sw : Bool) (ex ey : ℝ)
    (hrx : rx ≠ 0) (hry : ry ≠ 0) (hne : c ≠ Point.mk ex ey) :
    arc_center_coef c rx ry rot la sw ex ey * arc_center_coef c rx ry rot la sw ex ey
      = arc_center_radicand_raw c rx ry rot ex ey := by
  have hnn := arc_radicand_nonneg c rx ry rot ex ey
  have heq := arc_radicand_eq_raw c rx ry rot ex ey hrx hry hne
  unfold arc_center_coef
  split_ifs with h
  · rw [Real.mul_self_sqrt hnn, heq]
  · rw [show -Real.sqrt (arc_center_radicand c rx ry rot ex ey)
        * -Real.sqrt (arc_center_radicand c rx ry rot ex ey)
      = Real.sqrt (arc_center_radicand c rx ry rot ex ey)
        * Real.sqrt (arc_center_radicand c rx ry rot ex ey) by ring]
    rw [Real.mul_self_sqrt hnn, heq]

/-- Product form of the radicand identity used for the unit-vector
computation. -/
theorem arc_coef_denom (c : Point) (rx ry rot : ℝ) (la sw : Bool) (ex ey : ℝ)
    (hrx : rx ≠ 0) (hry : ry ≠ 0) (hne : c ≠ Point.mk ex ey) :
    arc_center_coef c rx ry rot la sw ex ey * arc_center_coef c rx ry rot la sw ex ey
      * (sqr (arc_rx_abs c rx ry rot ex ey) * sqr (arc_dy_rotated c rot ex ey)
        + sqr (arc_ry_abs c rx ry rot ex ey) * sqr (arc_dx_rotated c rot ex ey))
    = sqr (arc_rx_abs c rx ry rot ex ey) * sqr (arc_ry_abs c rx ry rot ex ey)
      - sqr (arc_rx_abs c rx ry rot ex ey) * sqr (arc_dy_rotated c rot ex ey)
      - sqr (arc_ry_abs c rx ry rot ex ey) * sqr (arc_dx_rotated c rot ex ey) := by
  rw [arc_coef_sq c rx ry rot la sw ex ey hrx hry hne]
  unfold arc_center_radicand_raw
  exact div_mul_cancel₀ _ (ne_of_gt (arc_denom_pos c rx ry rot ex ey hrx hry hne))

/-- Algebra helper: the start vector of the center parameterization is a
unit vector. -/
theorem unit_vector_algebra (A B R S cf : ℝ) (hR : R ≠ 0) (hS : S ≠ 0)
    (hc : cf * cf * (R * R * (B * B) + S * S * (A * A))
      = R * R * (S * S) - R * R * (B * B) - S * S * (A * A)) :
    (A - cf * (R * B / S)) / R * ((A - cf * (R * B / S)) / R)
      + (B - cf * (-S * A / R)) / S * ((B - cf * (-S * A / R)) / S) = 1 := by
  field_simp
  linear_combination S ^ 2 * R ^ 2 * hc

/-- Algebra helper: the end vector of the center parameterization is a
unit vector. -/
theorem unit_vector_algebra2 (A B R S cf : ℝ) (hR : R ≠ 0) (hS : S ≠ 0)
    (hc : cf * cf * (R * R * (B * B) + S * S * (A * A))
      = R * R * (S * S) - R * R * (B * B) - S * S * (A * A)) :
    (-A - cf * (R * B / S)) / R * ((-A - cf * (R * B / S)) / R)
      + (-B - cf * (-S * A / R)) / S * ((-B - cf * (-S * A / R)) / S) = 1 := by
  field_simp
  linear_combination S ^ 2 * R ^ 2 * hc

/-- The start vector computed by the parameterization is a unit vector. -/
theorem arc_sv_unit (c : Point) (rx ry rot : ℝ) (la sw : Bool) (ex ey : ℝ)
    (hrx : rx ≠ 0) (hry : ry ≠ 0) (hne : c ≠ Point.mk ex ey) :
    sqr (arc_start_vector c rx ry rot la sw ex ey).x
      + sqr (arc_start_vector c rx ry rot la sw ex ey).y = 1 := by
  have hc := arc_coef_denom c rx ry rot la sw ex ey hrx hry hne
  have hRne := (arc_rx_abs_pos c rx ry rot ex ey hrx).ne'
  have hSne := (arc_ry_abs_pos c rx ry rot ex ey hry).ne'
  have hc' : arc_center_coef c rx ry rot la sw ex ey * arc_center_coef c rx ry rot la sw ex ey
      * (arc_rx_abs c rx ry rot ex ey * arc_rx_abs c rx ry rot ex ey
          * (arc_dy_rotated c rot ex ey * arc_dy_rotated c rot ex ey)
        + arc_ry_abs c rx ry rot ex ey * arc_ry_abs c rx ry rot ex ey
          * (arc_dx_rotated c rot ex ey * arc_dx_rotated c rot ex ey))
      = arc_rx_abs c rx ry rot ex ey * arc_rx_abs c rx ry rot ex ey
          * (arc_ry_abs c rx ry rot ex ey * arc_ry_abs c rx ry rot ex ey)
        - arc_rx_abs c rx ry rot ex ey * arc_rx_abs c rx ry rot ex ey
          * (arc_dy_rotated c rot ex ey * arc_dy_rotated c rot ex ey)
        - arc_ry_abs c rx ry rot ex ey * arc_ry_abs c rx ry rot ex ey
          * (arc_dx_rotated c rot ex ey * arc_dx_rotated c rot ex ey) := by
    simp only [sqr] at hc
    linear_combination hc
  simp only [arc_start_vector, arc_center_x_rotated, arc_center_y_rotated, Point.new, sqr]
  exact unit_vector_algebra (arc_dx_rotated c rot ex ey) (arc_dy_rotated c rot ex ey)
    (arc_rx_abs c rx ry rot ex ey) (arc_ry_abs c rx ry rot ex ey)
    (arc_center_coef c rx ry rot la sw ex ey) hRne hSne hc'

/-- The end vector computed by the parameterization is a unit vector. -/
theorem arc_ev_unit (c : Point) (rx ry rot : ℝ) (la sw : Bool) (ex ey : ℝ)
    (hrx : rx ≠ 0) (hry : ry ≠ 0) (hne : c ≠ Point.mk ex ey) :
    sqr (arc_end_vector c rx ry rot la sw ex ey).x
      + sqr (arc_end_vector c rx ry rot la sw ex ey).y = 1 := by
  have hc := arc_coef_denom c rx ry rot la sw ex ey hrx hry hne
  have hRne := (arc_rx_abs_pos c rx ry rot ex ey hrx).ne'
  have hSne := (arc_ry_abs_pos c rx ry rot ex ey hry).ne'
  have hc' : arc_center_coef c rx ry rot la sw ex ey * arc_center_coef c rx ry rot la sw ex ey
      * (arc_rx_abs c rx ry rot ex ey * arc_rx_abs c rx ry rot ex ey
          * (arc_dy_rotated c rot ex ey * arc_dy_rotated c rot ex ey)
        + arc_ry_abs c rx ry rot ex ey * arc_ry_abs c rx ry rot ex ey
          * (arc_dx_rotated c rot ex ey * arc_dx_rotated c rot ex ey))
      = arc_rx_abs c rx ry rot ex ey * arc_rx_abs c rx ry rot ex ey
          * (arc_ry_abs c rx ry rot ex ey * arc_ry_abs c rx ry rot ex ey)
        - arc_rx_abs c rx ry rot ex ey * arc_rx_abs c rx ry rot ex ey
          * (arc_dy_rotated c rot ex ey * arc_dy_rotated c rot ex ey)
        - arc_ry_abs c rx ry rot ex ey * arc_ry_abs c rx ry rot ex ey
          * (arc_dx_rotated c rot ex ey * arc_dx_rotated c rot ex ey) := by
    simp only [sqr] at hc
    linear_combination hc
  simp only [arc_end_vector, arc_center_x_rotated, arc_center_y_rotated, Point.new, sqr]
  exact unit_vector_algebra2 (arc_dx_rotated c rot ex ey) (arc_dy_rotated c rot ex ey)
    (arc_rx_abs c rx ry rot ex ey) (arc_ry_abs c rx ry rot ex ey)
    (arc_center_coef c rx ry rot la sw ex ey) hRne hSne hc'

/-- The signed-acos angle function of the code applied to two unit
vectors: its cosine is their dot product and its sine is their cross
product. -/
theorem angle_between_cos_sin (u v : Point) (hu : sqr u.x + sqr u.y = 1)
    (hv : sqr v.x + sqr v.y = 1) :
    Real.cos (angle_between u v) = u.x * v.x + u.y * v.y
    ∧ Real.sin (angle_between u v) = u.x * v.y - u.y * v.x := by
  simp only [sqr] at hu hv
  have hlag : (u.x * v.x + u.y * v.y) * (u.x * v.x + u.y * v.y)
      + (u.x * v.y - u.y * v.x) * (u.x * v.y - u.y * v.x) = 1 := by
    linear_combination (u.x * u.x + u.y * u.y) * hv + hu
  have hd1 : -1 ≤ u.x * v.x + u.y * v.y := by
    nlinarith [sq_nonneg (u.x * v.x + u.y * v.y + 1),
      mul_self_nonneg (u.x * v.y - u.y * v.x)]
  have hd2 : u.x * v.x + u.y * v.y ≤ 1 := by
    nlinarith [sq_nonneg (u.x * v.x + u.y * v.y - 1),
      mul_self_nonneg (u.x * v.y - u.y * v.x)]
  have hn : Real.sqrt ((sqr u.x + sqr u.y) * (sqr v.x + sqr v.y)) = 1 := by
    simp only [sqr]
    rw [hu, hv]
    norm_num
  have hcross : 1 - (u.x * v.x + u.y * v.y) ^ 2 = (u.x * v.y - u.y * v.x) ^ 2 := by
    linear_combination -hlag
  simp only [angle_between]
  rw [hn, div_one]
  split_ifs with hsign
  · constructor
    · rw [show (-1 : ℝ) * Real.arccos (u.x * v.x + u.y * v.y)
          = -Real.arccos (u.x * v.x + u.y * v.y) by ring]
      rw [Real.cos_neg]
      exact Real.cos_arccos hd1 hd2
    · rw [show (-1 : ℝ) * Real.arccos (u.x * v.x + u.y * v.y)
          = -Real.arccos (u.x * v.x + u.y * v.y) by ring]
      rw [Real.sin_neg, Real.sin_arccos, hcross, Real.sqrt_sq_eq_abs,
        abs_of_neg hsign]
      ring
  · constructor
    · rw [one_mul]
      exact Real.cos_arccos hd1 hd2
    · rw [one_mul, Real.sin_arccos, hcross, Real.sqrt_sq_eq_abs,
        abs_of_nonneg (not_lt.mp hsign)]

/-- The truncation used by the modelled `f64` remainder is an integer. -/
theorem truncReal_int (q : ℝ) : ∃ k : ℤ, truncReal q = (k : ℝ) := by
  unfold truncReal
  split_ifs
  · exact ⟨⌊q⌋, rfl⟩
  · exact ⟨⌈q⌉, rfl⟩

/-- Reducing an angle with the `f64` remainder by `2π` preserves its
cosine and sine. -/
theorem cos_sin_fmod_two_pi (x : ℝ) :
    Real.cos (fmod x (2 * Real.pi)) = Real.cos x
    ∧ Real.sin (fmod x (2 * Real.pi)) = Real.sin x := by
  obtain ⟨k, hk⟩ := truncReal_int (x / (2 * Real.pi))
  unfold fmod
  rw [hk]
  constructor
  · rw [show x - 2 * Real.pi * (k : ℝ) = x - (k : ℝ) * (2 * Real.pi) by ring]
    exact Real.cos_sub_int_mul_two_pi x k
  · rw [show x - 2 * Real.pi * (k : ℝ) = x - (k : ℝ) * (2 * Real.pi) by ring]
    exact Real.sin_sub_int_mul_two_pi x k

/-- The final `sweep_angle` (after the `±2π` adjustment and the reduction
mod `2π`) has the same cosine and sine as the raw angle. -/
theorem arc_sweep_cos_sin (c : Point) (rx ry rot : ℝ) (la sw : Bool) (ex ey : ℝ) :
    Real.cos (arc_sweep_angle c rx ry rot la sw ex ey)
        = Real.cos (arc_sweep_angle_raw c rx ry rot la sw ex ey)
    ∧ Real.sin (arc_sweep_angle c rx ry rot la sw ex ey)
        = Real.sin (arc_sweep_angle_raw c rx ry rot la sw ex ey) := by
  unfold arc_sweep_angle
  constructor
  · rw [(cos_sin_fmod_two_pi _).1]
    split_ifs
    · exact Real.cos_sub_two_pi _
    · exact Real.cos_add_two_pi _
    · rfl
  · rw [(cos_sin_fmod_two_pi _).2]
    split_ifs
    · exact Real.sin_sub_two_pi _
    · exact Real.sin_add_two_pi _
    · rfl

/-- Cosine and sine of the computed start angle are the start vector's
components. -/
theorem arc_start_cos_sin (c : Point) (rx ry rot : ℝ) (la sw : Bool) (ex ey : ℝ)
    (hrx : rx ≠ 0) (hry : ry ≠ 0) (hne : c ≠ Point.mk ex ey) :
    Real.cos (arc_start_angle c rx ry rot la sw ex ey)
        = (arc_start_vector c rx ry rot la sw ex ey).x
    ∧ Real.sin (arc_start_angle c rx ry rot la sw ex ey)
        = (arc_start_vector c rx ry rot la sw ex ey).y := by
  have hu : sqr (Point.new 1 0).x + sqr (Point.new 1 0).y = 1 := by
    simp [Point.new, sqr]
  have h := angle_between_cos_sin (Point.new 1 0)
    (arc_start_vector c rx ry rot la sw ex ey) hu
    (arc_sv_unit c rx ry rot la sw ex ey hrx hry hne)
  unfold arc_start_angle
  constructor
  · rw [h.1]
    simp [Point.new]
  · rw [h.2]
    simp [Point.new]

/-- Cosine and sine of the raw sweep angle are the dot and cross products
of the start and end vectors. -/
theorem arc_raw_cos_sin (c : Point) (rx ry rot : ℝ) (la sw : Bool) (ex ey : ℝ)
    (hrx : rx ≠ 0) (hry : ry ≠ 0) (hne : c ≠ Point.mk ex ey) :
    Real.cos (arc_sweep_angle_raw c rx ry rot la sw ex ey)
        = (arc_start_vector c rx ry rot la sw ex ey).x
            * (arc_end_vector c rx ry rot la sw ex ey).x
          + (arc_start_vector c rx ry rot la sw ex ey).y
            * (arc_end_vector c rx ry rot la sw ex ey).y
    ∧ Real.sin (arc_sweep_angle_raw c rx ry rot la sw ex ey)
        = (arc_start_vector c rx ry rot la sw ex ey).x
            * (arc_end_vector c rx ry rot la sw ex ey).y
          - (arc_start_vector c rx ry rot la sw ex ey).y
            * (arc_end_vector c rx ry rot la sw ex ey).x := by
  exact angle_between_cos_sin _ _
    (arc_sv_unit c rx ry rot la sw ex ey hrx hry hne)
    (arc_ev_unit c rx ry rot la sw ex ey hrx hry hne)

/-- Rotating the rotated half-chord back recovers its x-component. -/
theorem arc_back_x (c : Point) (rot ex ey : ℝ) :
    Real.cos (arc_x_rad_rotation rot) * arc_dx_rotated c rot ex ey
      - Real.sin (arc_x_rad_rotation rot) * arc_dy_rotated c rot ex ey
      = arc_dx c ex := by
  have h := Real.sin_sq_add_cos_sq (arc_x_rad_rotation rot)
  simp only [arc_dx_rotated, arc_dy_rotated]
  linear_combination arc_dx c ex * h

/-- Rotating the rotated half-chord back recovers its y-component. -/
theorem arc_back_y (c : Point) (rot ex ey : ℝ) :
    Real.sin (arc_x_rad_rotation rot) * arc_dx_rotated c rot ex ey
      + Real.cos (arc_x_rad_rotation rot) * arc_dy_rotated c rot ex ey
      = arc_dy c ey := by
  have h := Real.sin_sq_add_cos_sq (arc_x_rad_rotation rot)
  simp only [arc_dx_rotated, arc_dy_rotated]
  linear_combination arc_dy c ey * h

/-- The ellipse evaluator built from the parameterization starts at the
current point. -/
theorem arc_at_zero (c : Point) (rx ry rot : ℝ) (la sw : Bool) (ex ey : ℝ)
    (hrx : rx ≠ 0) (hry : ry ≠ 0) (hne : c ≠ Point.mk ex ey) :
    (EllipseCurve.new (arc_start_angle c rx ry rot la sw ex ey)
        (arc_sweep_angle c rx ry rot la sw ex ey)
        (arc_rx_abs c rx ry rot ex ey) (arc_ry_abs c rx ry rot ex ey)
        (arc_x_rad_rotation rot)
        (arc_center_x c rx ry rot la sw ex ey)
        (arc_center_y c rx ry rot la sw ex ey)).atTime 0 = c := by
  have hstart := arc_start_cos_sin c rx ry rot la sw ex ey hrx hry hne
  have hRne := (arc_rx_abs_pos c rx ry rot ex ey hrx).ne'
  have hSne := (arc_ry_abs_pos c rx ry rot ex ey hry).ne'
  have hbx := arc_back_x c rot ex ey
  have hby := arc_back_y c rot ex ey
  simp only [arc_dx] at hbx
  simp only [arc_dy] at hby
  simp only [EllipseCurve.atTime, EllipseCurve.new, mul_zero, add_zero]
  rw [hstart.1, hstart.2]
  simp only [arc_start_vector, Point.new, arc_center_x, arc_center_y]
  have hRdiv : arc_rx_abs c rx ry rot ex ey
      * ((arc_dx_rotated c rot ex ey
          - arc_center_x_rotated c rx ry rot la sw ex ey)
        / arc_rx_abs c rx ry rot ex ey)
      = arc_dx_rotated c rot ex ey
        - arc_center_x_rotated c rx ry rot la sw ex ey := by
    field_simp
  have hSdiv : arc_ry_abs c rx ry rot ex ey
      * ((arc_dy_rotated c rot ex ey
          - arc_center_y_rotated c rx ry rot la sw ex ey)
        / arc_ry_abs c rx ry rot ex ey)
      = arc_dy_rotated c rot ex ey
        - arc_center_y_rotated c rx ry rot la sw ex ey := by
    field_simp
  rw [hRdiv, hSdiv]
  ext
  · simp only [Point.new]
    linear_combination hbx
  · simp only [Point.new]
    linear_combination hby

/-- The ellipse evaluator built from the parameterization ends at the
resolved end point. -/
theorem arc_at_one (c : Point) (rx ry rot : ℝ) (la sw : Bool) (ex ey : ℝ)
    (hrx : rx ≠ 0) (hry : ry ≠ 0) (hne : c ≠ Point.mk ex ey) :
    (EllipseCurve.new (arc_start_angle c rx ry rot la sw ex ey)
        (arc_sweep_angle c rx ry rot la sw ex ey)
        (arc_rx_abs c rx ry rot ex ey) (arc_ry_abs c rx ry rot ex ey)
        (arc_x_rad_rotation rot)
        (arc_center_x c rx ry rot la sw ex ey)
        (arc_center_y c rx ry rot la sw ex ey)).atTime 1 = Point.mk ex ey := by
  have hstart := arc_start_cos_sin c rx ry rot la sw ex ey hrx hry hne
  have hraw := arc_raw_cos_sin c rx ry rot la sw ex ey hrx hry hne
  have hsw := arc_sweep_cos_sin c rx ry rot la sw ex ey
  have hunit := arc_sv_unit c rx ry rot la sw ex ey hrx hry hne
  simp only [sqr] at hunit
  have hRne := (arc_rx_abs_pos c rx ry rot ex ey hrx).ne'
  have hSne := (arc_ry_abs_pos c rx ry rot ex ey hry).ne'
  have hbx := arc_back_x c rot ex ey
  have hby := arc_back_y c rot ex ey
  simp only [arc_dx] at hbx
  simp only [arc_dy] at hby
  have hcos : Real.cos (arc_start_angle c rx ry rot la sw ex ey
      + arc_sweep_angle c rx ry rot la sw ex ey)
      = (arc_end_vector c rx ry rot la sw ex ey).x := by
    rw [Real.cos_add, hsw.1, hsw.2, hstart.1, hstart.2, hraw.1, hraw.2]
    linear_combination (arc_end_vector c rx ry rot la sw ex ey).x * hunit
  have hsin : Real.sin (arc_start_angle c rx ry rot la sw ex ey
      + arc_sweep_angle c rx ry rot la sw ex ey)
      = (arc_end_vector c rx ry rot la sw ex ey).y := by
    rw [Real.sin_add, hsw.1, hsw.2, hstart.1, hstart.2, hraw.1, hraw.2]
    linear_combination (arc_end_vector c rx ry rot la sw ex ey).y * hunit
  simp only [EllipseCurve.atTime, EllipseCurve.new, mul_one]
  rw [hcos, hsin]
  simp only [arc_end_vector, Point.new, arc_center_x, arc_center_y]
  have hRdiv : arc_rx_abs c rx ry rot ex ey
      * ((-arc_dx_rotated c rot ex ey
          - arc_center_x_rotated c rx ry rot la sw ex ey)
        / arc_rx_abs c rx ry rot ex ey)
      = -arc_dx_rotated c rot ex ey
        - arc_center_x_rotated c rx ry rot la sw ex ey := by
    field_simp
  have hSdiv : arc_ry_abs c rx ry rot ex ey
      * ((-arc_dy_rotated c rot ex ey
          - arc_center_y_rotated c rx ry rot la sw ex ey)
        / arc_ry_abs c rx ry rot ex ey)
      = -arc_dy_rotated c rot ex ey
        - arc_center_y_rotated c rx ry rot la sw ex ey := by
    field_simp
  rw [hRdiv, hSdiv]
  ext
  · simp only [Point.new]
    linear_combination -hbx
  · simp only [Point.new]
    linear_combination -hby

/-- C5: each curve evaluator satisfies `at 0 = start` and `at 1 = end`:
exactly for the quadratic and cubic Bézier forms, and for the ellipse
form built by `ellipse_support_calc` from any non-degenerate arc (distinct
endpoints, nonzero radii — the only inputs the interpreter ever hands it),
where the endpoints are those the parameterization was computed from.
In the exact-real model the equalities are exact, hence within any
floating tolerance. -/
theorem C5_evaluator_endpoints (s p1 p2 e : Point) (c : Point) (rx ry rot : ℝ)
    (la sw : Bool) (ex ey : ℝ) :
    (SquareCurve.new s p1 e).atTime 0 = s
    ∧ (SquareCurve.new s p1 e).atTime 1 = e
    ∧ (CubicCurve.new s p1 p2 e).atTime 0 = s
    ∧ (CubicCurve.new s p1 p2 e).atTime 1 = e
    ∧ (c ≠ Point.mk ex ey → rx ≠ 0 → ry ≠ 0 →
        (EllipseCurve.new (arc_start_angle c rx ry rot la sw ex ey)
            (arc_sweep_angle c rx ry rot la sw ex ey)
            (arc_rx_abs c rx ry rot ex ey) (arc_ry_abs c rx ry rot ex ey)
            (arc_x_rad_rotation rot)
            (arc_center_x c rx ry rot la sw ex ey)
            (arc_center_y c rx ry rot la sw ex ey)).atTime 0 = c
        ∧ (EllipseCurve.new (arc_start_angle c rx ry rot la sw ex ey)
            (arc_sweep_angle c rx ry rot la sw ex ey)
            (arc_rx_abs c rx ry rot ex ey) (arc_ry_abs c rx ry rot ex ey)
            (arc_x_rad_rotation rot)
            (arc_center_x c rx ry rot la sw ex ey)
            (arc_center_y c rx ry rot la sw ex ey)).atTime 1 = Point.mk ex ey) := by
  refine ⟨?_, ?_, ?_, ?_, fun hne hrx hry =>
    ⟨arc_at_zero c rx ry rot la sw ex ey hrx hry hne,
     arc_at_one c rx ry rot la sw ex ey hrx hry hne⟩⟩
  · ext <;> simp [SquareCurve.new, SquareCurve.atTime]
  · ext <;> simp [SquareCurve.new, SquareCurve.atTime]
  · ext <;> simp [CubicCurve.new, CubicCurve.atTime]
  · ext <;> simp [CubicCurve.new, CubicCurve.atTime]

/-- Last yielded point of a curve iterator driven by a fresh tick timer:
the formula at the exact tick `1.0`. -/
theorem tick_map_getLast (f : ℝ → Point) :
    ((TickTimer.list TickTimer.default).map f).getLast? = some (f 1.0) := by
  rw [list_getLast?_map, TickTimer.list_default_getLast]
  rfl

/-- C1: whenever a segment emits at least one point, the last point it
emits equals the `end_position` the interpreter records as the cursor
after the segment — the very value used to resolve the next segment's
relative coordinates (second conjunct).  In particular a sampled
quadratic, cubic or ellipse curve ends exactly at its reported end
position. -/
theorem C1_positional_continuity (current : Point) (seg : PathSegment)
    (prev : Option SupportPoint) (anchor : Point) (st : PathState)
    (h : (calc_point_iterator current seg prev anchor).points ≠ []) :
    (calc_point_iterator current seg prev anchor).points.getLast?
        = some ((calc_point_iterator current seg prev anchor).end_position)
    ∧ (stepSegment st seg).2.current_point
        = (calc_point_iterator st.current_point seg st.prev_support_point_opt
            st.path_start_point).end_position := by
  refine ⟨?_, rfl⟩
  clear st
  cases seg with
  | MoveTo ab x y =>
    simp [calc_point_iterator, move_to, LinePointIterator.new,
      PointIterator.points, PointIterator.end_position]
  | LineTo ab x y =>
    simp [calc_point_iterator, line_to, LinePointIterator.new,
      PointIterator.points, PointIterator.end_position]
  | HorizontalLineTo ab x =>
    simp [calc_point_iterator, line_to, LinePointIterator.new,
      PointIterator.points, PointIterator.end_position]
  | VerticalLineTo ab y =>
    simp [calc_point_iterator, line_to, LinePointIterator.new,
      PointIterator.points, PointIterator.end_position]
  | ClosePath ab =>
    simp [calc_point_iterator, line_to, LinePointIterator.new,
      PointIterator.points, PointIterator.end_position]
  | CurveTo ab x1 y1 x2 y2 x y =>
    simp only [calc_point_iterator, cubic_curve_to]
    split_ifs with hl
    · simp [PointIterator.points, PointIterator.end_position,
        LinePointIterator.with_support]
    · simp only [PointIterator.points, PointIterator.end_position]
      exact tick_map_getLast _
  | SmoothCurveTo ab x2 y2 x y =>
    simp only [calc_point_iterator, smooth_cubic_curve_to, cubic_curve_to]
    split_ifs with hl
    · simp [PointIterator.points, PointIterator.end_position,
        LinePointIterator.with_support]
    · simp only [PointIterator.points, PointIterator.end_position]
      exact tick_map_getLast _
  | Quadratic ab x1 y1 x y =>
    simp only [calc_point_iterator, quadratic_curve_to]
    split_ifs with hl
    · simp [PointIterator.points, PointIterator.end_position,
        LinePointIterator.with_support]
    · simp only [PointIterator.points, PointIterator.end_position]
      exact tick_map_getLast _
  | SmoothQuadratic ab x y =>
    simp only [calc_point_iterator, smooth_quadratic_curve_to, quadratic_curve_to]
    split_ifs with hl
    · simp [PointIterator.points, PointIterator.end_position,
        LinePointIterator.with_support]
    · simp only [PointIterator.points, PointIterator.end_position]
      exact tick_map_getLast _
  | EllipticalArc ab rx ry rot la sw x y =>
    simp only [calc_point_iterator, ellipse_curve_to] at h ⊢
    split_ifs at h ⊢ with h1 h2
    · simp [PointIterator.points] at h
    · simp [line_to, LinePointIterator.new, PointIterator.points,
        PointIterator.end_position]
    · rw [not_or] at h2
      simp only [ellipse_support_calc, PointIterator.points, PointIterator.end_position]
      rw [tick_map_getLast]
      have h10 : (1.0 : ℝ) = 1 := by norm_num
      rw [h10]
      rw [arc_at_one current rx ry rot la sw
        (absolute_point_coord current ab x y).x (absolute_point_coord current ab x y).y
        h2.1 h2.2 h1]

/-- Witness for C1 at a concrete input: an absolute `LineTo (3,4)` from
the origin emits one point, and that last point is the recorded end
position; the cursor after the step is that end position. -/
theorem C1_witness :
    (calc_point_iterator Point.ZERO (PathSegment.LineTo true 3 4) none
        Point.ZERO).points.getLast?
      = some ((calc_point_iterator Point.ZERO (PathSegment.LineTo true 3 4) none
          Point.ZERO).end_position)
    ∧ (stepSegment initState (PathSegment.LineTo true 3 4)).2.current_point
      = (calc_point_iterator initState.current_point (PathSegment.LineTo true 3 4)
          initState.prev_support_point_opt initState.path_start_point).end_position :=
  C1_positional_continuity Point.ZERO (PathSegment.LineTo true 3 4) none Point.ZERO
    initState
    (by simp [calc_point_iterator, line_to, LinePointIterator.new, PointIterator.points])

end SvgDrawing
